import Mathlib

/-!
# Verification of the review-session engine and chunked content reader

Shallow embedding of `repository-code-view-tool-mcp`:

* `src/src/utils/file-content.ts` — the chunked content reader
  (`getEndline`, `getFileContent`).
* `src/src/utils/review-session.ts` — the session store and engine
  (`createSession`, `saveSession`, `getSession`, `getSessionIdForProject`,
  `updateFileReview`, `getNextFileToReview`, `completeSession`,
  `resetSessionTokenCount`).
* `src/src/index.ts` — the MCP tool handlers
  (`start-review-session`, `get-next-review-file`, `submit-file-review`,
  `complete-review-session`).

Modelling conventions:

* The tiktoken token counter (`countToken` in `count-token.ts`) is external;
  it is abstracted as a parameter `est : String → Nat` giving the token count
  of a whole string.  The per-line variant used by the content reader is
  `countTokenLines est`, which maps `est` over the newline-split lines,
  exactly as `countToken` does in the array-returning version of the source.
* The filesystem-backed session store (one JSON file per session plus a
  `project-index.json`) is modelled as the `Store` structure holding the two
  association lists.  A JavaScript object property assignment is `assocSet`.
* Timestamps (`new Date().toISOString()`) and fresh session ids are external
  inputs; they are passed as explicit `now` / `sessionId` arguments.
* File reads performed by the handlers are external; the outcome of a read is
  passed as an argument (`Option String`, `none` meaning the file was missing
  or unreadable, in which case the handler substitutes `""`, mirroring the
  `fs.existsSync` / `try`-`catch` fallback in `submit-file-review`).
* JavaScript out-of-bounds array reads yield `undefined`; in `getEndline`
  adding `undefined` makes the accumulator `NaN`, so the `while` guard
  `currentToken < token` is false on the next check and the loop exits after
  the one extra `endLine++`.  `getEndlineGo` reproduces this exactly: on an
  out-of-bounds read it returns `endLine + 1`.  The fuel argument
  (`lineTokens.length + 1`) strictly exceeds the number of loop iterations
  the JavaScript loop can perform (each in-bounds iteration increments
  `endLine`, which starts at `startLine ≥ 0` and must stay below the array
  length; the first out-of-bounds iteration terminates the loop), so the
  fuel-0 base case is unreachable.
-/

/-- One step of the `while (currentToken < token)` loop of `getEndline` in
`file-content.ts`, with explicit fuel (see the header comment on fuel
adequacy and the `NaN` behaviour of the out-of-bounds read). -/
def getEndlineGo (lineTokens : List Nat) (token : Nat) : Nat → Nat → Nat → Nat
  | 0, endLine, _ => endLine
  | fuel + 1, endLine, currentToken =>
    if currentToken < token then
      match lineTokens[endLine]? with
      | some t => getEndlineGo lineTokens token fuel (endLine + 1) (currentToken + t)
      | none => endLine + 1
    else endLine

/-- `getEndline` from `file-content.ts`: starting at `startLine`, accumulate
per-line token counts while the running total is below `token`. -/
def getEndline (startLine : Nat) (lineTokens : List Nat) (token : Nat) : Nat :=
  getEndlineGo lineTokens token (lineTokens.length + 1) startLine 0

/-- Per-line token counts of a list of lines: `lines.map(line => est line)`,
the array-returning `countToken` of `count-token.ts` applied to already-split
lines. -/
def countTokenLines (est : String → Nat) (lines : List String) : List Nat :=
  lines.map est

/-- Result record of `getFileContent` in `file-content.ts`. -/
structure FileChunk where
  content : String
  endLine : Nat
  isEnded : Bool
deriving DecidableEq

/-- Core of `getFileContent` from `file-content.ts`, operating on the
newline-split lines of the file's content (the source computes
`content.split("\n")` once for the token counts and once for the slice;
`getFileContent` below applies this to `content.splitOn "\n"`). -/
def getFileContentLines (est : String → Nat) (lines : List String) (token : Nat)
    (startLine : Option Nat) : FileChunk :=
  let lineTokens := countTokenLines est lines
  let endLine := getEndline (startLine.getD 0) lineTokens token
  let isEnded := endLine == lineTokens.length
  let contentByLine := (lines.drop (startLine.getD 0)).take (endLine - startLine.getD 0)
  { content := String.intercalate "\n" contentByLine
    endLine := endLine
    isEnded := isEnded }

/-- `getFileContent` from `file-content.ts`, for a file whose full text is
`content` (the `readFile` call is external; a file that is readable yields
its content here, an unreadable one makes the promise reject before this
logic runs). -/
def getFileContent (est : String → Nat) (content : String) (token : Nat)
    (startLine : Option Nat) : FileChunk :=
  getFileContentLines est (content.splitOn "\n") token startLine

/-! ## Concrete chunk-reader scenario of §8 of the spec

A 10-line file in which every line costs 10 tokens, read with budget 35.
`c7chunk s` is the chunk call starting at line `s`; `c7orbit n` is the start
line of the `n`-th call when each follow-up call starts at the previous
call's `endLine` (the first call starts at line 0). -/

/-- The lines of the 10-line example file. -/
def c7lines : List String := List.replicate 10 "x"

/-- Token estimator with every line costing 10 tokens. -/
def c7est : String → Nat := fun _ => 10

/-- One chunk call with budget 35 starting at line `s`. -/
def c7chunk (s : Nat) : FileChunk :=
  getFileContentLines c7est c7lines 35 (some s)

/-- Start line of the `n`-th chunk call when iterating from 0, each call
starting at the previous call's `endLine`. -/
def c7orbit : Nat → Nat
  | 0 => 0
  | n + 1 => (c7chunk (c7orbit n)).endLine

/-! ## The session store and review-session engine -/

/-- JavaScript object property assignment `obj[k] = v` on an association
list: replace the binding if the key is present, append it otherwise. -/
def assocSet (l : List (String × α)) (k : String) (v : α) : List (String × α) :=
  if l.any (fun p => p.1 == k) then
    l.map (fun p => if p.1 == k then (k, v) else p)
  else l ++ [(k, v)]

/-- `ReviewFile` from `review-session.ts`. -/
structure ReviewFile where
  path : String
  reviewed : Bool
  feedback : String
  agentReview : Option String
  tokenCount : Option Nat
deriving DecidableEq

/-- `ReviewSession` from `review-session.ts`. -/
structure ReviewSession where
  id : String
  projectFolder : String
  files : List ReviewFile
  createdAt : String
  updatedAt : String
  totalTokenCount : Nat
  currentSessionTokenCount : Nat
  tokenLimit : Nat
  completed : Bool
deriving DecidableEq

/-- The durable state under the sessions directory: one record per session id
plus the `project-index.json` mapping project folders to session ids. -/
structure Store where
  sessions : List (String × ReviewSession)
  projectIndex : List (String × String)
deriving DecidableEq

/-- `saveSession`: refresh `updatedAt`, then overwrite the record for the
session's id.  Returns the store together with the saved session (the
TypeScript function mutates the caller's object, so callers observe the
refreshed `updatedAt`). -/
def saveSession (st : Store) (now : String) (session : ReviewSession) :
    Store × ReviewSession :=
  let s := { session with updatedAt := now }
  ({ st with sessions := assocSet st.sessions s.id s }, s)

/-- `getSession`: read the record for a session id (`null` when absent). -/
def getSession (st : Store) (sessionId : String) : Option ReviewSession :=
  st.sessions.lookup sessionId

/-- `getSessionIdForProject`: consult the project index;
`index[projectFolder] || null` turns an empty-string id into `null`. -/
def getSessionIdForProject (st : Store) (projectFolder : String) : Option String :=
  match st.projectIndex.lookup projectFolder with
  | some sessionId => if sessionId = "" then none else some sessionId
  | none => none

/-- The initial `ReviewFile` built by `createSession` for one path. -/
def mkReviewFile (file : String) : ReviewFile :=
  { path := file, reviewed := false, feedback := "", agentReview := none, tokenCount := none }

/-- `createSession`: build the session record in input order, persist it and
point the project index at the new id.  The generated id and the timestamp
are external inputs. -/
def createSession (st : Store) (projectFolder : String) (files : List String)
    (tokenLimit : Nat) (sessionId now : String) : Store × ReviewSession :=
  let session : ReviewSession :=
    { id := sessionId
      projectFolder := projectFolder
      files := files.map mkReviewFile
      createdAt := now
      updatedAt := now
      totalTokenCount := 0
      currentSessionTokenCount := 0
      tokenLimit := tokenLimit
      completed := false }
  let (st1, saved) := saveSession st now session
  let st2 := { st1 with projectIndex := assocSet st1.projectIndex projectFolder sessionId }
  (st2, saved)

/-- The truthiness test `if (agentReview)` / `agentReview ? … : 0` of
`review-session.ts` (`undefined` and the empty string are falsy). -/
def agentTruthy : Option String → Bool
  | some a => a != ""
  | none => false

/-- `agentReview ? countToken(agentReview) : 0`. -/
def agentReviewTokens (est : String → Nat) (agentReview : Option String) : Nat :=
  match agentReview with
  | some a => if a != "" then est a else 0
  | none => 0

/-- The per-submission token cost computed by `updateFileReview`:
file content plus feedback plus (truthy) agent review. -/
def submissionCost (est : String → Nat) (fileContent feedback : String)
    (agentReview : Option String) : Nat :=
  est fileContent + est feedback + agentReviewTokens est agentReview

/-- The field updates `updateFileReview` performs on the located entry. -/
def applyReviewToFile (reviewed : Bool) (feedback : String)
    (agentReview : Option String) (tokens : Nat) (f : ReviewFile) : ReviewFile :=
  { f with
    reviewed := reviewed
    feedback := feedback
    agentReview := if agentTruthy agentReview then agentReview else f.agentReview
    tokenCount := some tokens }

/-- `findIndex` followed by in-place mutation of the found element:
update the first element satisfying `p`, or return `none` when there is none
(the `fileIndex === -1` branch). -/
def updateFirst (p : α → Bool) (f : α → α) : List α → Option (List α)
  | [] => none
  | x :: xs =>
    if p x then some (f x :: xs)
    else (updateFirst p f xs).map (fun ys => x :: ys)

/-- `session.files.reduce((sum, file) => sum + (file.tokenCount || 0), 0)`. -/
def sumTokenCounts (files : List ReviewFile) : Nat :=
  files.foldl (fun sum f => sum + f.tokenCount.getD 0) 0

/-- `updateFileReview` from `review-session.ts`: locate the entry by exact
path match, set its fields, recompute `totalTokenCount` from scratch, add the
submission's cost to `currentSessionTokenCount`, persist.  Returns the store
unchanged (and `none`) when the session or the file is not found. -/
def updateFileReview (est : String → Nat) (st : Store) (now sessionId filePath
    fileContent : String) (reviewed : Bool) (feedback : String)
    (agentReview : Option String) : Store × Option ReviewSession :=
  match getSession st sessionId with
  | none => (st, none)
  | some session =>
    let currentFileTokens := submissionCost est fileContent feedback agentReview
    match updateFirst (fun f => f.path == filePath)
        (applyReviewToFile reviewed feedback agentReview currentFileTokens)
        session.files with
    | none => (st, none)
    | some files1 =>
      let session1 := { session with
        files := files1
        totalTokenCount := sumTokenCounts files1
        currentSessionTokenCount := session.currentSessionTokenCount + currentFileTokens }
      let (st1, saved) := saveSession st now session1
      (st1, some saved)

/-- `getNextFileToReview`: the first entry with `reviewed == false`. -/
def getNextFileToReview (st : Store) (sessionId : String) : Option ReviewFile :=
  match getSession st sessionId with
  | none => none
  | some session => session.files.find? (fun f => !f.reviewed)

/-- `completeSession`: set `completed = true` and persist (no pending-files
check at this layer; the handler checks). -/
def completeSession (st : Store) (now sessionId : String) :
    Store × Option ReviewSession :=
  match getSession st sessionId with
  | none => (st, none)
  | some session =>
    let session1 := { session with completed := true }
    let (st1, saved) := saveSession st now session1
    (st1, some saved)

/-- `resetSessionTokenCount`: zero `currentSessionTokenCount` only, persist. -/
def resetSessionTokenCount (st : Store) (now sessionId : String) :
    Store × Option ReviewSession :=
  match getSession st sessionId with
  | none => (st, none)
  | some session =>
    let session1 := { session with currentSessionTokenCount := 0 }
    let (st1, saved) := saveSession st now session1
    (st1, some saved)

/-! ## The MCP tool handlers of `index.ts` (first version) -/

/-- The shared key resolution of every handler: treat `key` as a session id
if `getSession` finds it, otherwise consult the project index. -/
def resolveSessionId (st : Store) (key : String) : Option String :=
  match getSession st key with
  | some _ => some key
  | none => getSessionIdForProject st key

/-- Result of the `get-next-review-file` tool. -/
inductive NextFileResult where
  | errorNoSession
  | errorSessionNotFound
  | tokenLimitExceededAllReviewed (tokenCount tokenLimit : Nat)
  | tokenLimitExceeded (tokenCount tokenLimit pendingFiles : Nat)
  | completed
  | success (filePath : String)
deriving DecidableEq

/-- The `get-next-review-file` handler: budget check first (distinguishing
whether unreviewed files remain), then the first unreviewed entry. -/
def getNextReviewFile (st : Store) (key : String) : NextFileResult :=
  match resolveSessionId st key with
  | none => .errorNoSession
  | some sessionId =>
    match getSession st sessionId with
    | none => .errorSessionNotFound
    | some session =>
      if session.tokenLimit < session.currentSessionTokenCount then
        let pendingFiles := session.files.countP (fun f => !f.reviewed)
        if pendingFiles == 0 then
          .tokenLimitExceededAllReviewed session.currentSessionTokenCount session.tokenLimit
        else
          .tokenLimitExceeded session.currentSessionTokenCount session.tokenLimit pendingFiles
      else
        match getNextFileToReview st sessionId with
        | none => .completed
        | some f => .success f.path

/-- Result of the `complete-review-session` tool. -/
inductive CompleteResult where
  | errorNoSession
  | errorSessionNotFound
  | errorPending (pendingCount reviewedCount totalFiles : Nat)
  | errorCompleteFailed
  | success (sessionId : String) (reviewedCount pendingCount tokenCount : Nat)
deriving DecidableEq

/-- The `complete-review-session` handler: refuse (without persisting) while
any file is unreviewed, otherwise mark the session completed. -/
def completeReviewSession (st : Store) (key now : String) : Store × CompleteResult :=
  match resolveSessionId st key with
  | none => (st, .errorNoSession)
  | some sessionId =>
    match getSession st sessionId with
    | none => (st, .errorSessionNotFound)
    | some session =>
      let pendingFiles := session.files.countP (fun f => !f.reviewed)
      if 0 < pendingFiles then
        (st, .errorPending pendingFiles (session.files.countP (fun f => f.reviewed))
          session.files.length)
      else
        match completeSession st now sessionId with
        | (st1, some s) =>
          (st1, .success s.id (s.files.countP (fun f => f.reviewed))
            (s.files.countP (fun f => !f.reviewed)) s.currentSessionTokenCount)
        | (st1, none) => (st1, .errorCompleteFailed)

/-- Result of the `submit-file-review` tool. -/
inductive SubmitResult where
  | errorNoSession
  | errorUpdateFailed
  | success (sessionId filePath : String)
      (reviewedCount pendingCount tokenCount tokenLimit : Nat)
      (exceedsTokenLimit : Bool)
deriving DecidableEq

/-- The `submit-file-review` handler (first version of `index.ts`): the file
read outcome is passed as `readResult` (`none` = missing or unreadable, which
the `try`/`existsSync` fallback turns into the empty string).  This version
of the tool has no separate feedback parameter: `agentReview` is passed in
the `feedback` position of `updateFileReview` and the `agentReview` parameter
is left `undefined`. -/
def submitFileReview (est : String → Nat) (st : Store) (key filePath agentReview : String)
    (readResult : Option String) (now : String) : Store × SubmitResult :=
  match resolveSessionId st key with
  | none => (st, .errorNoSession)
  | some sessionId =>
    let fileContent := readResult.getD ""
    match updateFileReview est st now sessionId filePath fileContent true agentReview none with
    | (st1, some s) =>
      (st1, .success s.id filePath (s.files.countP (fun f => f.reviewed))
        (s.files.countP (fun f => !f.reviewed)) s.currentSessionTokenCount s.tokenLimit
        (decide (s.tokenLimit < s.currentSessionTokenCount)))
    | (st1, none) => (st1, .errorUpdateFailed)

/-- Result of the `start-review-session` tool. -/
inductive StartResult where
  | resumed (session : ReviewSession)
  | errorResetFailed
  | errorNoFiles
  | created (session : ReviewSession)
deriving DecidableEq

/-- The session-creation arm of `start-review-session`: `files` is the
resolved file list (caller-supplied or produced by the external discovery
collaborator); an empty list is the "No files found to review" error. -/
def startNewSession (st : Store) (projectRoot : String) (files : List String)
    (tokenLimit : Nat) (newId now : String) : Store × StartResult :=
  if files.isEmpty then (st, .errorNoFiles)
  else
    let (st1, s) := createSession st projectRoot files tokenLimit newId now
    (st1, .created s)

/-- The `start-review-session` handler: with `forceNew = false`, an existing
non-completed session for the project is resumed (its window counter reset);
otherwise a new session is created. -/
def startReviewSession (st : Store) (projectRoot : String) (files : List String)
    (tokenLimit : Nat) (forceNew : Bool) (newId now : String) : Store × StartResult :=
  if forceNew = false then
    match getSessionIdForProject st projectRoot with
    | some existingId =>
      match getSession st existingId with
      | some existing =>
        if existing.completed = false then
          match resetSessionTokenCount st now existingId with
          | (st1, some s) => (st1, .resumed s)
          | (st1, none) => (st1, .errorResetFailed)
        else startNewSession st projectRoot files tokenLimit newId now
      | none => startNewSession st projectRoot files tokenLimit newId now
    | none => startNewSession st projectRoot files tokenLimit newId now
  else startNewSession st projectRoot files tokenLimit newId now

/-! ## Sequences of engine operations -/

/-- The arguments of one `submit-file-review`-driven `updateFileReview` call
(the handler always passes `reviewed = true`); `now` is the timestamp of the
call. -/
structure SubmitOp where
  now : String
  filePath : String
  fileContent : String
  feedback : String
  agentReview : Option String
deriving DecidableEq

/-- Apply one submission to the store (a failed submission leaves the store
untouched, exactly as `updateFileReview` does). -/
def applySubmit (est : String → Nat) (sessionId : String) (st : Store) (op : SubmitOp) :
    Store :=
  (updateFileReview est st op.now sessionId op.filePath op.fileContent true
    op.feedback op.agentReview).1

/-- Apply a sequence of submissions to the store, oldest first. -/
def applySubmits (est : String → Nat) (sessionId : String) (st : Store) :
    List SubmitOp → Store
  | [] => st
  | op :: ops => applySubmits est sessionId (applySubmit est sessionId st op) ops

/-- One engine operation addressed at a fixed session: a review submission, a
resume (window reset), a completion attempt, or a next-file query (which
never writes). -/
inductive EngineOp where
  | submit (now filePath fileContent feedback : String) (agentReview : Option String)
  | reset (now : String)
  | complete (now : String)
  | nextFile
deriving DecidableEq

/-- Effect of one engine operation on the store. -/
def applyOp (est : String → Nat) (sessionId : String) (st : Store) : EngineOp → Store
  | .submit now filePath fileContent feedback agentReview =>
    (updateFileReview est st now sessionId filePath fileContent true feedback agentReview).1
  | .reset now => (resetSessionTokenCount st now sessionId).1
  | .complete now => (completeReviewSession st sessionId now).1
  | .nextFile => st

/-- Effect of a sequence of engine operations on the store, oldest first. -/
def applyOps (est : String → Nat) (sessionId : String) (st : Store) :
    List EngineOp → Store
  | [] => st
  | op :: ops => applyOps est sessionId (applyOp est sessionId st op) ops

/-! ## Helper lemmas: chunk reader -/

theorem getFileContentLines_endLine (est : String → Nat) (lines : List String)
    (token : Nat) (startLine : Option Nat) :
    (getFileContentLines est lines token startLine).endLine
      = getEndline (startLine.getD 0) (countTokenLines est lines) token := rfl

theorem getFileContentLines_isEnded (est : String → Nat) (lines : List String)
    (token : Nat) (startLine : Option Nat) :
    (getFileContentLines est lines token startLine).isEnded
      = ((getFileContentLines est lines token startLine).endLine
          == (countTokenLines est lines).length) := rfl

theorem getEndlineGo_oob (lineTokens : List Nat) (token : Nat) (fuel endLine cur : Nat)
    (hcur : cur < token) (hlen : lineTokens.length ≤ endLine) :
    getEndlineGo lineTokens token (fuel + 1) endLine cur = endLine + 1 := by
  simp [getEndlineGo, hcur, List.getElem?_eq_none hlen]

/-- Past the end of the file, a chunk call returns `endLine = startLine + 1`
(the out-of-bounds read makes the accumulator `NaN`). -/
theorem c7chunk_endLine_oob (s : Nat) (hs : 10 ≤ s) :
    (c7chunk s).endLine = s + 1 := by
  have hlen : (countTokenLines c7est c7lines).length ≤ s := by
    simpa [countTokenLines, c7lines] using hs
  rw [c7chunk, getFileContentLines_endLine, getEndline]
  exact getEndlineGo_oob _ _ _ _ _ (by decide) hlen

theorem c7chunk_isEnded_oob (s : Nat) (hs : 10 ≤ s) :
    (c7chunk s).isEnded = false := by
  have h : (c7chunk s).endLine = s + 1 := c7chunk_endLine_oob s hs
  have hlen : (countTokenLines c7est c7lines).length = 10 := by
    simp [countTokenLines, c7lines]
  rw [c7chunk, getFileContentLines_isEnded, hlen]
  rw [c7chunk] at h
  rw [h]
  simp only [beq_eq_false_iff_ne, ne_eq]
  omega

theorem c7orbit_ge_three (n : Nat) : c7orbit (n + 3) = n + 11 := by
  induction n with
  | zero => decide
  | succ k ih =>
    have : c7orbit (k + 3 + 1) = (c7chunk (c7orbit (k + 3))).endLine := rfl
    rw [this, ih, c7chunk_endLine_oob (k + 11) (by omega)]

/-! ## Helper lemmas: association lists -/

theorem lookup_cons_eq_if (k a : String) (b : α) (t : List (String × α)) :
    List.lookup k ((a, b) :: t) = if k == a then some b else List.lookup k t := by
  cases h : k == a <;> simp [List.lookup, h]

theorem lookup_map_replace (l : List (String × α)) (k : String) (v : α)
    (h : l.any (fun p => p.1 == k) = true) :
    (l.map (fun p => if p.1 == k then (k, v) else p)).lookup k = some v := by
  induction l with
  | nil => simp at h
  | cons x t ih =>
    rcases x with ⟨a, b⟩
    cases hx : a == k with
    | true =>
      simp only [List.map_cons]
      rw [if_pos hx, lookup_cons_eq_if]
      simp
    | false =>
      have ht : t.any (fun p => p.1 == k) = true := by
        simpa [List.any_cons, hx] using h
      have hk : (k == a) = false := by
        rw [beq_eq_false_iff_ne] at hx ⊢
        exact fun e => hx e.symm
      simp only [List.map_cons]
      rw [if_neg (by simp [hx]), lookup_cons_eq_if, if_neg (by simp [hk])]
      exact ih ht

theorem lookup_map_replace_ne (l : List (String × α)) (k k' : String) (v : α)
    (hne : (k' == k) = false) :
    (l.map (fun p => if p.1 == k then (k, v) else p)).lookup k' = l.lookup k' := by
  induction l with
  | nil => simp
  | cons x t ih =>
    rcases x with ⟨a, b⟩
    cases hx : a == k with
    | true =>
      have hk'a : (k' == a) = false := by
        rw [beq_iff_eq] at hx
        rw [hx]
        exact hne
      simp only [List.map_cons]
      rw [if_pos hx, lookup_cons_eq_if, lookup_cons_eq_if,
        if_neg (by simp [hne]), if_neg (by simp [hk'a]), ih]
    | false =>
      simp only [List.map_cons]
      rw [if_neg (by simp [hx]), lookup_cons_eq_if, lookup_cons_eq_if]
      cases hcase : k' == a with
      | true => simp
      | false => rw [if_neg (by simp [hcase]), if_neg (by simp [hcase]), ih]

theorem lookup_append_single_self (l : List (String × α)) (k : String) (v : α)
    (h : l.any (fun p => p.1 == k) = false) :
    (l ++ [(k, v)]).lookup k = some v := by
  induction l with
  | nil => simp [List.lookup]
  | cons x t ih =>
    rcases x with ⟨a, b⟩
    have hx : (a == k) = false := by
      cases hx : a == k
      · rfl
      · simp [List.any_cons, hx] at h
    have ht : t.any (fun p => p.1 == k) = false := by
      simpa [List.any_cons, hx] using h
    have hk : (k == a) = false := by
      rw [beq_eq_false_iff_ne] at hx ⊢
      exact fun e => hx e.symm
    rw [List.cons_append, lookup_cons_eq_if, if_neg (by simp [hk])]
    exact ih ht

theorem lookup_append_single_ne (l : List (String × α)) (k k' : String) (v : α)
    (hne : (k' == k) = false) :
    (l ++ [(k, v)]).lookup k' = l.lookup k' := by
  induction l with
  | nil => simp [List.lookup, hne]
  | cons x t ih =>
    rcases x with ⟨a, b⟩
    rw [List.cons_append, lookup_cons_eq_if, lookup_cons_eq_if]
    cases hcase : k' == a with
    | true => simp
    | false => rw [if_neg (by simp [hcase]), if_neg (by simp [hcase]), ih]

theorem lookup_assocSet_self (l : List (String × α)) (k : String) (v : α) :
    (assocSet l k v).lookup k = some v := by
  rw [assocSet]
  rcases Bool.eq_false_or_eq_true (l.any (fun p => p.1 == k)) with h | h
  · rw [if_pos h]
    exact lookup_map_replace l k v h
  · rw [if_neg (by simp [h])]
    exact lookup_append_single_self l k v h

theorem lookup_assocSet_ne (l : List (String × α)) (k k' : String) (v : α)
    (hne : k' ≠ k) : (assocSet l k v).lookup k' = l.lookup k' := by
  have hk'k : (k' == k) = false := by simpa [beq_eq_false_iff_ne] using hne
  rw [assocSet]
  rcases Bool.eq_false_or_eq_true (l.any (fun p => p.1 == k)) with h | h
  · rw [if_pos h]
    exact lookup_map_replace_ne l k k' v hk'k
  · rw [if_neg (by simp [h])]
    exact lookup_append_single_ne l k k' v hk'k

theorem any_of_lookup_some (l : List (String × α)) (k : String) (v : α)
    (h : l.lookup k = some v) : l.any (fun p => p.1 == k) = true := by
  induction l with
  | nil => simp [List.lookup] at h
  | cons x t ih =>
    rcases x with ⟨a, b⟩
    rw [lookup_cons_eq_if] at h
    cases hcase : k == a with
    | false =>
      rw [if_neg (by simp [hcase])] at h
      have ha : (a == k) = false := by
        rw [beq_eq_false_iff_ne] at hcase ⊢
        exact fun e => hcase e.symm
      simp [List.any_cons, ha, ih h]
    | true =>
      have ha : (a == k) = true := by
        rw [beq_iff_eq] at hcase ⊢
        exact hcase.symm
      simp [List.any_cons, ha]

theorem assocSet_map_fst_of_any (l : List (String × α)) (k : String) (v : α)
    (h : l.any (fun p => p.1 == k) = true) :
    (assocSet l k v).map Prod.fst = l.map Prod.fst := by
  rw [assocSet, if_pos h, List.map_map]
  apply List.map_congr_left
  intro p _
  cases hp : p.1 == k with
  | false =>
    simp only [Function.comp_apply]
    rw [if_neg (by simp [hp])]
  | true =>
    simp only [Function.comp_apply]
    rw [if_pos hp]
    rw [beq_iff_eq] at hp
    simp [hp]

/-! ## Helper lemmas: `updateFirst`, `find?`, sums -/

theorem updateFirst_none_of_all_not (p : α → Bool) (f : α → α) (l : List α)
    (h : ∀ a ∈ l, p a = false) : updateFirst p f l = none := by
  induction l with
  | nil => rfl
  | cons x t ih =>
    rw [updateFirst, if_neg (by simp [h x (List.mem_cons_self x t)])]
    rw [ih (fun a ha => h a (List.mem_cons_of_mem x ha))]
    rfl

theorem updateFirst_isSome_of_any (p : α → Bool) (f : α → α) (l : List α)
    (h : l.any p = true) : (updateFirst p f l).isSome = true := by
  induction l with
  | nil => simp at h
  | cons x t ih =>
    rw [updateFirst]
    cases hx : p x with
    | true => simp
    | false =>
      rw [if_neg (by simp [hx])]
      have ht : t.any p = true := by simpa [List.any_cons, hx] using h
      rcases Option.isSome_iff_exists.mp (ih ht) with ⟨ys, hys⟩
      simp [hys]

theorem updateFirst_spec (p : α → Bool) (f : α → α) :
    ∀ (l l' : List α), updateFirst p f l = some l' →
      ∃ n a, l[n]? = some a ∧ p a = true
        ∧ (∀ k, k < n → ∀ b, l[k]? = some b → p b = false)
        ∧ l' = l.set n (f a) := by
  intro l
  induction l with
  | nil => intro l' h; simp [updateFirst] at h
  | cons x t ih =>
    intro l' h
    rw [updateFirst] at h
    cases hx : p x with
    | true =>
      rw [if_pos hx] at h
      refine ⟨0, x, by simp, hx, ?_, ?_⟩
      · intro k hk b hb; omega
      · simpa [List.set] using h.symm
    | false =>
      rw [if_neg (by simp [hx])] at h
      rcases Option.map_eq_some'.mp h with ⟨ys, hys, hl'⟩
      rcases ih ys hys with ⟨n, a, hget, hpa, hfirst, hset⟩
      refine ⟨n + 1, a, by simpa using hget, hpa, ?_, ?_⟩
      · intro k hk b hb
        cases k with
        | zero =>
          simp at hb
          rw [← hb]
          exact hx
        | succ m =>
          have : m < n := by omega
          exact hfirst m this b (by simpa using hb)
      · rw [← hl', hset]
        rfl

theorem set_getElem?_self : ∀ (l : List α) (n : Nat) (a : α),
    l[n]? = some a → l.set n a = l := by
  intro l
  induction l with
  | nil => intro n a h; simp at h
  | cons x t ih =>
    intro n a h
    cases n with
    | zero =>
      simp at h
      simp [List.set, h]
    | succ m =>
      simp at h
      simp [List.set, ih m a h]

theorem find?_eq_some_of_first (p : α → Bool) :
    ∀ (l : List α) (n : Nat) (a : α), l[n]? = some a → p a = true →
      (∀ k, k < n → ∀ b, l[k]? = some b → p b = false) → l.find? p = some a := by
  intro l
  induction l with
  | nil => intro n a h; simp at h
  | cons x t ih =>
    intro n a hget hpa hfirst
    cases n with
    | zero =>
      simp at hget
      rw [← hget] at hpa
      rw [List.find?, hpa]
      rw [hget]
    | succ m =>
      have hx : p x = false := hfirst 0 (by omega) x (by simp)
      rw [List.find?, hx]
      exact ih m a (by simpa using hget) hpa
        (fun k hk b hb => hfirst (k + 1) (by omega) b (by simpa using hb))

theorem foldl_add_map (g : ReviewFile → Nat) :
    ∀ (l : List ReviewFile) (a : Nat),
      l.foldl (fun s f => s + g f) a = a + (l.map g).sum := by
  intro l
  induction l with
  | nil => intro a; simp
  | cons x t ih =>
    intro a
    rw [List.foldl_cons, ih, List.map_cons, List.sum_cons]
    omega

theorem sumTokenCounts_eq_sum (l : List ReviewFile) :
    sumTokenCounts l = (l.map (fun f => f.tokenCount.getD 0)).sum := by
  rw [sumTokenCounts, foldl_add_map]
  omega

/-! ## Helper lemmas: engine -/

theorem lt_length_of_getElem?_some {l : List α} {n : Nat} {a : α}
    (h : l[n]? = some a) : n < l.length := by
  cases Nat.lt_or_ge n l.length with
  | inl hlt => exact hlt
  | inr hge => rw [List.getElem?_eq_none hge] at h; cases h

theorem getSession_saveSession_self (st : Store) (now : String) (s : ReviewSession) :
    getSession (saveSession st now s).1 s.id = some { s with updatedAt := now } := by
  rw [saveSession, getSession]
  exact lookup_assocSet_self st.sessions s.id { s with updatedAt := now }

theorem getSession_saveSession_ne (st : Store) (now : String) (s : ReviewSession)
    (sid : String) (h : sid ≠ s.id) :
    getSession (saveSession st now s).1 sid = getSession st sid := by
  rw [saveSession, getSession, getSession]
  exact lookup_assocSet_ne st.sessions s.id sid { s with updatedAt := now } h

theorem applyReviewToFile_path (rv : Bool) (fb : String) (ar : Option String)
    (tk : Nat) (f : ReviewFile) : (applyReviewToFile rv fb ar tk f).path = f.path := rfl

theorem updateFirst_map_path (g : ReviewFile → ReviewFile)
    (hg : ∀ x, (g x).path = x.path) (p : ReviewFile → Bool) (l l' : List ReviewFile)
    (h : updateFirst p g l = some l') :
    l'.map (fun f => f.path) = l.map (fun f => f.path) := by
  rcases updateFirst_spec p g l l' h with ⟨n, a, hget, hpa, hfirst, hset⟩
  rw [hset, List.map_set, hg]
  apply set_getElem?_self
  simp [List.getElem?_map, hget]

theorem updateFirst_find? (p : α → Bool) (g : α → α) (hp : ∀ x, p (g x) = p x)
    (l l' : List α) (h : updateFirst p g l = some l') :
    ∃ n a, l[n]? = some a ∧ p a = true
      ∧ l' = l.set n (g a)
      ∧ l'.find? p = some (g a) := by
  rcases updateFirst_spec p g l l' h with ⟨n, a, hget, hpa, hfirst, hset⟩
  refine ⟨n, a, hget, hpa, hset, ?_⟩
  have hn : n < l.length := lt_length_of_getElem?_some hget
  apply find?_eq_some_of_first p l' n (g a)
  · rw [hset]
    simp [List.getElem?_set_self, hn]
  · rw [hp]
    exact hpa
  · intro k hk b hb
    rw [hset, List.getElem?_set_ne (by omega)] at hb
    exact hfirst k hk b hb

theorem updateFirst_getElem?_ne (p : α → Bool) (g : α → α) (l l' : List α)
    (h : updateFirst p g l = some l') (j : Nat) (b : α)
    (hj : l[j]? = some b) (hb : p b = false) : l'[j]? = some b := by
  rcases updateFirst_spec p g l l' h with ⟨n, a, hget, hpa, hfirst, hset⟩
  have hne : n ≠ j := by
    intro e
    rw [e, hj] at hget
    cases hget
    rw [hpa] at hb
    cases hb
  rw [hset, List.getElem?_set_ne hne, hj]

theorem countP_pos_of_getElem? (files : List ReviewFile) (j : Nat) (e : ReviewFile)
    (h : files[j]? = some e) (he : e.reviewed = false) :
    0 < files.countP (fun f => !f.reviewed) := by
  apply List.countP_pos_iff.mpr
  exact ⟨e, List.getElem?_mem h, by simp [he]⟩

theorem countP_not_reviewed_zero (files : List ReviewFile)
    (h : ∀ f ∈ files, f.reviewed = true) :
    files.countP (fun f => !f.reviewed) = 0 := by
  apply List.countP_eq_zero.mpr
  intro f hf
  simp [h f hf]

theorem sum_map_zero (l : List String) : (l.map (fun _ => (0 : Nat))).sum = 0 := by
  induction l with
  | nil => rfl
  | cons x t ih => simp [ih]

/-! ## Claim theorems -/

/-- C1: for every readable file content and every start line, `getFileContent`
returns `isEnded = true` if and only if the returned `endLine` equals the
total number of newline-split lines of the file's content. -/
theorem c1_isEnded_iff_endLine_eq_lineCount (est : String → Nat) (content : String)
    (token : Nat) (startLine : Option Nat) :
    (getFileContent est content token startLine).isEnded = true
      ↔ (getFileContent est content token startLine).endLine
          = (content.splitOn "\n").length := by
  rw [getFileContent, getFileContentLines_isEnded, beq_iff_eq, countTokenLines,
    List.length_map]

/-- C7: for the 10-line file in which every line costs 10 tokens, read with
budget 35, the first chunk call (start line 0) does return `endLine = 4` and
`isEnded = false`, but iterating follow-up calls from each previous `endLine`
reaches `endLine = 8` and then — via the out-of-bounds read that turns the
accumulator into `NaN` — `endLine = 11`, after which every call returns
`endLine = startLine + 1`; no call in the iteration ever reports
`isEnded = true` (and in particular none returns `endLine = 10` with
`isEnded = true`), contradicting the claimed termination of the iteration. -/
theorem c7_chunk_iteration_never_reports_ended :
    (c7chunk 0).endLine = 4 ∧ (c7chunk 0).isEnded = false
      ∧ (c7chunk 4).endLine = 8 ∧ (c7chunk 4).isEnded = false
      ∧ (c7chunk 8).endLine = 11 ∧ (c7chunk 8).isEnded = false
      ∧ ∀ n : Nat, (c7chunk (c7orbit n)).isEnded = false := by
  refine ⟨by decide, by decide, by decide, by decide, by decide, by decide, ?_⟩
  intro n
  match n with
  | 0 => decide
  | 1 => decide
  | 2 => decide
  | (k + 3) =>
    rw [c7orbit_ge_three]
    exact c7chunk_isEnded_oob (k + 11) (by omega)

/-- C10: a submission for a path that is not in the session's file list
returns the failure result and leaves the whole store — every session record,
including `updatedAt`, `totalTokenCount` and `currentSessionTokenCount`, and
the project index — exactly unchanged. -/
theorem c10_submit_unknown_path_leaves_store_unchanged
    (est : String → Nat) (st : Store) (now sessionId filePath fileContent : String)
    (reviewed : Bool) (feedback : String) (agentReview : Option String)
    (s : ReviewSession)
    (hs : getSession st sessionId = some s)
    (habs : ∀ f ∈ s.files, f.path ≠ filePath) :
    updateFileReview est st now sessionId filePath fileContent reviewed feedback
      agentReview = (st, none) := by
  have hnone : updateFirst (fun f => f.path == filePath)
      (applyReviewToFile reviewed feedback agentReview
        (submissionCost est fileContent feedback agentReview)) s.files = none := by
    apply updateFirst_none_of_all_not
    intro a ha
    simp [habs a ha]
  simp only [updateFileReview, hs, hnone]

/-- Witness for C10: on a store holding a freshly created session over the
single file `a`, submitting a review for the unknown path `b` fails and
leaves the store untouched. -/
theorem c10_witness :
    updateFileReview (fun s => s.length)
        ((createSession ⟨[], []⟩ "p" ["a"] 100 "sid" "t0").1)
        "t1" "sid" "b" "c" true "" none
      = ((createSession ⟨[], []⟩ "p" ["a"] 100 "sid" "t0").1, none) :=
  c10_submit_unknown_path_leaves_store_unchanged (fun s => s.length)
    ((createSession ⟨[], []⟩ "p" ["a"] 100 "sid" "t0").1)
    "t1" "sid" "b" "c" true "" none
    ((createSession ⟨[], []⟩ "p" ["a"] 100 "sid" "t0").2)
    (by decide) (by decide)

theorem updateFileReview_eq_of_some (est : String → Nat) (st : Store)
    (now sid fp content : String) (rv : Bool) (fb : String) (ar : Option String)
    (s : ReviewSession) (files1 : List ReviewFile)
    (hs : getSession st sid = some s)
    (hupd : updateFirst (fun f => f.path == fp)
      (applyReviewToFile rv fb ar (submissionCost est content fb ar)) s.files
        = some files1) :
    updateFileReview est st now sid fp content rv fb ar
      = ((saveSession st now { s with
            files := files1
            totalTokenCount := sumTokenCounts files1
            currentSessionTokenCount :=
              s.currentSessionTokenCount + submissionCost est content fb ar }).1,
        some { s with
            files := files1
            totalTokenCount := sumTokenCounts files1
            currentSessionTokenCount :=
              s.currentSessionTokenCount + submissionCost est content fb ar
            updatedAt := now }) := by
  simp only [updateFileReview, hs, hupd, saveSession]

/-- C8: a submission for a file that is in the session's list succeeds even
when the file cannot be read from disk (the handler substitutes the empty
string, whose token estimate is 0): the entry is marked reviewed, its token
cost is the token estimate of the submitted review text alone (the content
component contributes 0; in this version of the tool the single review text
is passed in the feedback position and the agent-review component is
`undefined`, contributing 0 as well), and the window counter grows by exactly
that cost. -/
theorem c8_submit_succeeds_when_file_unreadable
    (est : String → Nat) (st : Store) (key filePath agentReview now : String)
    (s : ReviewSession)
    (hz : est "" = 0)
    (hs : getSession st key = some s)
    (hid : s.id = key)
    (hm : s.files.any (fun f => f.path == filePath) = true) :
    ∃ st1 s1 e,
      submitFileReview est st key filePath agentReview none now
        = (st1, SubmitResult.success s1.id filePath
            (s1.files.countP (fun f => f.reviewed))
            (s1.files.countP (fun f => !f.reviewed))
            s1.currentSessionTokenCount s1.tokenLimit
            (decide (s1.tokenLimit < s1.currentSessionTokenCount)))
      ∧ getSession st1 key = some s1
      ∧ s1.files.find? (fun f => f.path == filePath) = some e
      ∧ e.reviewed = true
      ∧ e.tokenCount = some (est agentReview)
      ∧ s1.currentSessionTokenCount = s.currentSessionTokenCount + est agentReview := by
  have hcost : submissionCost est "" agentReview none = est agentReview := by
    simp [submissionCost, agentReviewTokens, hz]
  have hp : ∀ x : ReviewFile, ((applyReviewToFile true agentReview none
      (submissionCost est "" agentReview none) x).path == filePath)
        = (x.path == filePath) := fun x => rfl
  rcases Option.isSome_iff_exists.mp (updateFirst_isSome_of_any
      (fun f => f.path == filePath)
      (applyReviewToFile true agentReview none (submissionCost est "" agentReview none))
      s.files hm) with ⟨files1, hupd⟩
  rcases updateFirst_find? _ _ hp s.files files1 hupd with ⟨n, a, hget, hpa, hset, hfind⟩
  have hred := updateFileReview_eq_of_some est st now key filePath "" true agentReview
    none s files1 hs hupd
  refine ⟨(saveSession st now { s with
      files := files1
      totalTokenCount := sumTokenCounts files1
      currentSessionTokenCount :=
        s.currentSessionTokenCount + submissionCost est "" agentReview none }).1,
    { s with
      files := files1
      totalTokenCount := sumTokenCounts files1
      currentSessionTokenCount :=
        s.currentSessionTokenCount + submissionCost est "" agentReview none
      updatedAt := now },
    applyReviewToFile true agentReview none (submissionCost est "" agentReview none) a,
    ?_, ?_, hfind, rfl, ?_, ?_⟩
  · simp only [submitFileReview, resolveSessionId, hs, Option.getD_none, hred]
  · have := getSession_saveSession_self st now { s with
      files := files1
      totalTokenCount := sumTokenCounts files1
      currentSessionTokenCount :=
        s.currentSessionTokenCount + submissionCost est "" agentReview none }
    simpa [hid] using this
  · simp [applyReviewToFile, hcost]
  · simp [hcost]

/-- Witness for C8: on a freshly created session over the file `a`, a
submission whose file read failed still succeeds, marks the entry reviewed,
and costs exactly the review text's estimate. -/
theorem c8_witness :
    ∃ st1 s1 e,
      submitFileReview (fun s => s.length)
          ((createSession ⟨[], []⟩ "p" ["a"] 100 "sid" "t0").1) "sid" "a" "great" none "t1"
        = (st1, SubmitResult.success s1.id "a"
            (s1.files.countP (fun f => f.reviewed))
            (s1.files.countP (fun f => !f.reviewed))
            s1.currentSessionTokenCount s1.tokenLimit
            (decide (s1.tokenLimit < s1.currentSessionTokenCount)))
      ∧ getSession st1 "sid" = some s1
      ∧ s1.files.find? (fun f => f.path == "a") = some e
      ∧ e.reviewed = true
      ∧ e.tokenCount = some ((fun s : String => s.length) "great")
      ∧ s1.currentSessionTokenCount
          = ((createSession ⟨[], []⟩ "p" ["a"] 100 "sid" "t0").2).currentSessionTokenCount
            + (fun s : String => s.length) "great" :=
  c8_submit_succeeds_when_file_unreadable (fun s => s.length)
    ((createSession ⟨[], []⟩ "p" ["a"] 100 "sid" "t0").1) "sid" "a" "great" "t1"
    ((createSession ⟨[], []⟩ "p" ["a"] 100 "sid" "t0").2)
    (by decide) (by decide) (by decide) (by decide)

/-- Counterexample for C6: on a session over the single file `a` (token
estimator = string length), a first submission sets the entry's `tokenCount`
to 5 and a resubmission then sets it to 2 — the field is assigned a second
time and decreases, refuting "assigned exactly once and never decreased". -/
theorem c6_counterexample :
    (((updateFileReview (fun s => s.length)
        ((createSession ⟨[], []⟩ "p" ["a"] 100 "sid" "t0").1)
        "t1" "sid" "a" "xxxxx" true "" none).2.bind
        (fun s => s.files.find? (fun f => f.path == "a"))).map
        (fun e => e.tokenCount) = some (some 5))
    ∧ (((updateFileReview (fun s => s.length)
        ((updateFileReview (fun s => s.length)
            ((createSession ⟨[], []⟩ "p" ["a"] 100 "sid" "t0").1)
            "t1" "sid" "a" "xxxxx" true "" none).1)
        "t2" "sid" "a" "xx" true "" none).2.bind
        (fun s => s.files.find? (fun f => f.path == "a"))).map
        (fun e => e.tokenCount) = some (some 2)) := by decide

/-- C6 (amended): a FileEntry's `tokenCount` is written by every successful
submission for that path — set on the first submission and replaced (possibly
with a smaller value) on each resubmission — while entries with a different
path keep their `tokenCount`, and neither `resetSessionTokenCount` nor
`completeSession` changes any file entry. -/
theorem c6_tokenCount_replaced_on_resubmission
    (est : String → Nat) (st : Store) (now sessionId filePath fileContent : String)
    (reviewed : Bool) (feedback : String) (agentReview : Option String)
    (s : ReviewSession)
    (hs : getSession st sessionId = some s)
    (hm : s.files.any (fun f => f.path == filePath) = true) :
    ∃ st1 s1 e,
      updateFileReview est st now sessionId filePath fileContent reviewed feedback
          agentReview = (st1, some s1)
      ∧ s1.files.find? (fun f => f.path == filePath) = some e
      ∧ e.tokenCount = some (submissionCost est fileContent feedback agentReview)
      ∧ (∀ (j : Nat) (e0 e1 : ReviewFile), s.files[j]? = some e0 →
          s1.files[j]? = some e1 →
          e0.path ≠ filePath → e1.tokenCount = e0.tokenCount)
      ∧ (∀ s2, (resetSessionTokenCount st now sessionId).2 = some s2 → s2.files = s.files)
      ∧ (∀ s2, (completeSession st now sessionId).2 = some s2 → s2.files = s.files) := by
  have hp : ∀ x : ReviewFile, ((applyReviewToFile reviewed feedback agentReview
      (submissionCost est fileContent feedback agentReview) x).path == filePath)
        = (x.path == filePath) := fun x => rfl
  rcases Option.isSome_iff_exists.mp (updateFirst_isSome_of_any
      (fun f => f.path == filePath)
      (applyReviewToFile reviewed feedback agentReview
        (submissionCost est fileContent feedback agentReview))
      s.files hm) with ⟨files1, hupd⟩
  rcases updateFirst_find? _ _ hp s.files files1 hupd with ⟨n, a, hget, hpa, hset, hfind⟩
  have hred := updateFileReview_eq_of_some est st now sessionId filePath fileContent
    reviewed feedback agentReview s files1 hs hupd
  refine ⟨(saveSession st now { s with
      files := files1
      totalTokenCount := sumTokenCounts files1
      currentSessionTokenCount :=
        s.currentSessionTokenCount
          + submissionCost est fileContent feedback agentReview }).1,
    { s with
      files := files1
      totalTokenCount := sumTokenCounts files1
      currentSessionTokenCount :=
        s.currentSessionTokenCount + submissionCost est fileContent feedback agentReview
      updatedAt := now },
    applyReviewToFile reviewed feedback agentReview
      (submissionCost est fileContent feedback agentReview) a,
    hred, hfind, rfl, ?_, ?_, ?_⟩
  · intro j e0 e1 h0 h1 hne
    have hb : (e0.path == filePath) = false := by simp [hne]
    have h1' := updateFirst_getElem?_ne _ _ s.files files1 hupd j e0 h0 hb
    have : some e1 = some e0 := by rw [← h1, ← h1']
    cases this
    rfl
  · intro s2 h2
    simp only [resetSessionTokenCount, hs, saveSession, Option.some.injEq] at h2
    rw [← h2]
  · intro s2 h2
    simp only [completeSession, hs, saveSession, Option.some.injEq] at h2
    rw [← h2]

/-- Witness for C6 (amended): first submission on a fresh session over the
file `a`. -/
theorem c6_witness :
    ∃ st1 s1 e,
      updateFileReview (fun s => s.length)
          ((createSession ⟨[], []⟩ "p" ["a"] 100 "sid" "t0").1)
          "t1" "sid" "a" "xxxxx" true "" none = (st1, some s1)
      ∧ s1.files.find? (fun f => f.path == "a") = some e
      ∧ e.tokenCount = some (submissionCost (fun s => s.length) "xxxxx" "" none)
      ∧ (∀ (j : Nat) (e0 e1 : ReviewFile),
          ((createSession ⟨[], []⟩ "p" ["a"] 100 "sid" "t0").2).files[j]? = some e0 →
          s1.files[j]? = some e1 → e0.path ≠ "a" → e1.tokenCount = e0.tokenCount)
      ∧ (∀ s2, (resetSessionTokenCount
            ((createSession ⟨[], []⟩ "p" ["a"] 100 "sid" "t0").1) "t1" "sid").2 = some s2 →
          s2.files = ((createSession ⟨[], []⟩ "p" ["a"] 100 "sid" "t0").2).files)
      ∧ (∀ s2, (completeSession
            ((createSession ⟨[], []⟩ "p" ["a"] 100 "sid" "t0").1) "t1" "sid").2 = some s2 →
          s2.files = ((createSession ⟨[], []⟩ "p" ["a"] 100 "sid" "t0").2).files) :=
  c6_tokenCount_replaced_on_resubmission (fun s => s.length)
    ((createSession ⟨[], []⟩ "p" ["a"] 100 "sid" "t0").1)
    "t1" "sid" "a" "xxxxx" true "" none
    ((createSession ⟨[], []⟩ "p" ["a"] 100 "sid" "t0").2)
    (by decide) (by decide)

/-- C2: on an over-budget session (`currentSessionTokenCount > tokenLimit`)
the next-file tool reports the exceeded-pending status when an unreviewed
file remains and the exceeded-all-reviewed status when none does; on a
within-budget session it returns the first unreviewed file in original list
order, or the all-reviewed (completed) status when every entry is
reviewed. -/
theorem c2_nextFile_characterization (st : Store) (key : String) (s : ReviewSession)
    (hs : getSession st key = some s) :
    (s.tokenLimit < s.currentSessionTokenCount →
      ((∃ f ∈ s.files, f.reviewed = false) →
        getNextReviewFile st key
          = NextFileResult.tokenLimitExceeded s.currentSessionTokenCount s.tokenLimit
              (s.files.countP (fun f => !f.reviewed)))
      ∧ ((∀ f ∈ s.files, f.reviewed = true) →
        getNextReviewFile st key
          = NextFileResult.tokenLimitExceededAllReviewed s.currentSessionTokenCount
              s.tokenLimit))
    ∧ (s.currentSessionTokenCount ≤ s.tokenLimit →
      (∀ (n : Nat) (f : ReviewFile), s.files[n]? = some f → f.reviewed = false →
        (∀ k, k < n → ∀ g, s.files[k]? = some g → g.reviewed = true) →
        getNextReviewFile st key = NextFileResult.success f.path)
      ∧ ((∀ f ∈ s.files, f.reviewed = true) →
        getNextReviewFile st key = NextFileResult.completed)) := by
  have hresolve : resolveSessionId st key = some key := by
    simp [resolveSessionId, hs]
  constructor
  · intro hlim
    constructor
    · rintro ⟨f, hf, hrev⟩
      have hpos : 0 < s.files.countP (fun f => !f.reviewed) :=
        List.countP_pos_iff.mpr ⟨f, hf, by simp [hrev]⟩
      have hne : ((s.files.countP (fun f => !f.reviewed)) == 0) = false := by
        rw [beq_eq_false_iff_ne]
        omega
      simp only [getNextReviewFile, hresolve, hs, if_pos hlim, hne]
      simp
    · intro hall
      have hz : s.files.countP (fun f => !f.reviewed) = 0 :=
        countP_not_reviewed_zero s.files hall
      simp only [getNextReviewFile, hresolve, hs, if_pos hlim, hz]
      simp
  · intro hle
    have hnotlt : ¬ s.tokenLimit < s.currentSessionTokenCount := by omega
    constructor
    · intro n f hget hrev hall
      have hfind : s.files.find? (fun f => !f.reviewed) = some f := by
        apply find?_eq_some_of_first _ s.files n f hget (by simp [hrev])
        intro k hk g hgk
        simp [hall k hk g hgk]
      simp only [getNextReviewFile, hresolve, hs, if_neg hnotlt, getNextFileToReview,
        hfind]
    · intro hall
      have hnone : s.files.find? (fun f => !f.reviewed) = none :=
        List.find?_eq_none.mpr (fun a ha => by simp [hall a ha])
      simp only [getNextReviewFile, hresolve, hs, if_neg hnotlt, getNextFileToReview,
        hnone]

/-- Witness for C2: a stored session over budget (150 tokens used against a
limit of 100) with one unreviewed file yields the exceeded-pending status. -/
theorem c2_witness :
    getNextReviewFile
        ⟨[("sid", ⟨"sid", "p", [⟨"a", false, "", none, none⟩],
          "t0", "t0", 0, 150, 100, false⟩)], []⟩ "sid"
      = NextFileResult.tokenLimitExceeded 150 100 1 :=
  ((c2_nextFile_characterization
      ⟨[("sid", ⟨"sid", "p", [⟨"a", false, "", none, none⟩],
        "t0", "t0", 0, 150, 100, false⟩)], []⟩ "sid"
      ⟨"sid", "p", [⟨"a", false, "", none, none⟩], "t0", "t0", 0, 150, 100, false⟩
      (by decide)).1 (by decide)).1
    ⟨⟨"a", false, "", none, none⟩, by decide, rfl⟩

/-- C5: completion fails with the pending-files error (reporting the count of
unreviewed files) and persists nothing while any entry is unreviewed; when
none is unreviewed it succeeds and stores `completed = true`, and calling the
tool again on the already-completed session is again a success (a no-op on
the review state), not an error. -/
theorem c5_complete_characterization (st : Store) (key now now2 : String)
    (s : ReviewSession)
    (hs : getSession st key = some s) (hid : s.id = key) :
    (0 < s.files.countP (fun f => !f.reviewed) →
      completeReviewSession st key now
        = (st, CompleteResult.errorPending (s.files.countP (fun f => !f.reviewed))
            (s.files.countP (fun f => f.reviewed)) s.files.length))
    ∧ (s.files.countP (fun f => !f.reviewed) = 0 →
      ∃ st1 s1,
        completeReviewSession st key now
          = (st1, CompleteResult.success s1.id (s1.files.countP (fun f => f.reviewed))
              (s1.files.countP (fun f => !f.reviewed)) s1.currentSessionTokenCount)
        ∧ s1 = { s with completed := true, updatedAt := now }
        ∧ getSession st1 key = some s1
        ∧ s1.completed = true
        ∧ (completeReviewSession st1 key now2).2
            = CompleteResult.success s1.id (s1.files.countP (fun f => f.reviewed))
                (s1.files.countP (fun f => !f.reviewed)) s1.currentSessionTokenCount
        ∧ (∃ s2, getSession (completeReviewSession st1 key now2).1 key = some s2
            ∧ s2.completed = true ∧ s2.files = s1.files)) := by
  have hresolve : resolveSessionId st key = some key := by simp [resolveSessionId, hs]
  constructor
  · intro hpos
    simp only [completeReviewSession, hresolve, hs, if_pos hpos]
  · intro h0
    have hneg : ¬ 0 < s.files.countP (fun f => !f.reviewed) := by omega
    have hcs : completeSession st now key
        = ((saveSession st now { s with completed := true }).1,
           some { s with completed := true, updatedAt := now }) := by
      simp only [completeSession, hs, saveSession]
    have hgs1 : getSession (saveSession st now { s with completed := true }).1 key
        = some { s with completed := true, updatedAt := now } := by
      have := getSession_saveSession_self st now { s with completed := true }
      simpa [hid] using this
    have hresolve1 : resolveSessionId
        (saveSession st now { s with completed := true }).1 key = some key := by
      simp [resolveSessionId, hgs1]
    have hcs1 : completeSession (saveSession st now { s with completed := true }).1
        now2 key
        = ((saveSession (saveSession st now { s with completed := true }).1 now2
              { s with completed := true, updatedAt := now2 }).1,
           some { s with completed := true, updatedAt := now2 }) := by
      simp only [completeSession]
      rw [hgs1]
      rfl
    refine ⟨(saveSession st now { s with completed := true }).1,
      { s with completed := true, updatedAt := now }, ?_, rfl, hgs1, rfl, ?_, ?_⟩
    · simp only [completeReviewSession, hresolve, hs, if_neg hneg, hcs]
    · simp only [completeReviewSession, hresolve1, hgs1, if_neg hneg, hcs1]
    · refine ⟨{ s with completed := true, updatedAt := now2 }, ?_, rfl, rfl⟩
      simp only [completeReviewSession, hresolve1, hgs1, if_neg hneg, hcs1]
      have := getSession_saveSession_self
        (saveSession st now { s with completed := true }).1 now2
        { s with completed := true, updatedAt := now2 }
      simpa [hid] using this

/-- Witness for C5: a stored session whose single file is reviewed completes
successfully, and the completion is idempotent. -/
theorem c5_witness :
    (0 < (List.countP (fun f => !f.reviewed)
        [(⟨"a", true, "", none, some 3⟩ : ReviewFile)]) →
      completeReviewSession
          ⟨[("sid", ⟨"sid", "p", [⟨"a", true, "", none, some 3⟩],
            "t0", "t0", 3, 3, 100, false⟩)], []⟩ "sid" "t1"
        = (⟨[("sid", ⟨"sid", "p", [⟨"a", true, "", none, some 3⟩],
            "t0", "t0", 3, 3, 100, false⟩)], []⟩,
           CompleteResult.errorPending
             (List.countP (fun f => !f.reviewed)
               [(⟨"a", true, "", none, some 3⟩ : ReviewFile)])
             (List.countP (fun f => f.reviewed)
               [(⟨"a", true, "", none, some 3⟩ : ReviewFile)])
             [(⟨"a", true, "", none, some 3⟩ : ReviewFile)].length))
    ∧ (List.countP (fun f => !f.reviewed)
        [(⟨"a", true, "", none, some 3⟩ : ReviewFile)] = 0 →
      ∃ st1 s1,
        completeReviewSession
            ⟨[("sid", ⟨"sid", "p", [⟨"a", true, "", none, some 3⟩],
              "t0", "t0", 3, 3, 100, false⟩)], []⟩ "sid" "t1"
          = (st1, CompleteResult.success s1.id
              (s1.files.countP (fun f => f.reviewed))
              (s1.files.countP (fun f => !f.reviewed)) s1.currentSessionTokenCount)
        ∧ s1 = { (⟨"sid", "p", [⟨"a", true, "", none, some 3⟩],
              "t0", "t0", 3, 3, 100, false⟩ : ReviewSession) with
            completed := true, updatedAt := "t1" }
        ∧ getSession st1 "sid" = some s1
        ∧ s1.completed = true
        ∧ (completeReviewSession st1 "sid" "t2").2
            = CompleteResult.success s1.id (s1.files.countP (fun f => f.reviewed))
                (s1.files.countP (fun f => !f.reviewed)) s1.currentSessionTokenCount
        ∧ (∃ s2, getSession (completeReviewSession st1 "sid" "t2").1 "sid" = some s2
            ∧ s2.completed = true ∧ s2.files = s1.files)) :=
  c5_complete_characterization
    ⟨[("sid", ⟨"sid", "p", [⟨"a", true, "", none, some 3⟩],
      "t0", "t0", 3, 3, 100, false⟩)], []⟩ "sid" "t1" "t2"
    ⟨"sid", "p", [⟨"a", true, "", none, some 3⟩], "t0", "t0", 3, 3, 100, false⟩
    (by decide) (by decide)

/-- C4: starting with `forceNew = false` on a project whose index points at
an existing non-completed session resumes that session instead of creating a
new one: the project index is untouched (still mapping the project to the
same id), the set of stored session ids is unchanged, the window counter is
reset to 0, and the session's `totalTokenCount`, `files`, `tokenLimit`, `id`
and `completed` fields are all preserved. -/
theorem c4_resume_preserves_session (st : Store) (projectRoot : String)
    (files : List String) (tokenLimit : Nat) (newId now : String)
    (sid : String) (s : ReviewSession)
    (hidx : getSessionIdForProject st projectRoot = some sid)
    (hs : getSession st sid = some s)
    (hid : s.id = sid)
    (hnc : s.completed = false) :
    ∃ st1 s1,
      startReviewSession st projectRoot files tokenLimit false newId now
        = (st1, StartResult.resumed s1)
      ∧ s1 = { s with currentSessionTokenCount := 0, updatedAt := now }
      ∧ st1.projectIndex = st.projectIndex
      ∧ getSessionIdForProject st1 projectRoot = some sid
      ∧ getSession st1 sid = some s1
      ∧ st1.sessions.map Prod.fst = st.sessions.map Prod.fst
      ∧ s1.currentSessionTokenCount = 0
      ∧ s1.totalTokenCount = s.totalTokenCount
      ∧ s1.files = s.files
      ∧ s1.tokenLimit = s.tokenLimit
      ∧ s1.id = s.id
      ∧ s1.completed = false := by
  have hreset : resetSessionTokenCount st now sid
      = ((saveSession st now { s with currentSessionTokenCount := 0 }).1,
         some { s with currentSessionTokenCount := 0, updatedAt := now }) := by
    simp only [resetSessionTokenCount, hs, saveSession]
  have hcompleted : (s.completed = false) = True := by simp [hnc]
  refine ⟨(saveSession st now { s with currentSessionTokenCount := 0 }).1,
    { s with currentSessionTokenCount := 0, updatedAt := now },
    ?_, rfl, rfl, ?_, ?_, ?_, rfl, rfl, rfl, rfl, rfl, hnc⟩
  · simp only [startReviewSession, if_pos rfl, hidx, hs, hcompleted, if_true, hreset]
  · exact hidx
  · have := getSession_saveSession_self st now { s with currentSessionTokenCount := 0 }
    simpa [hid] using this
  · rw [saveSession]
    apply assocSet_map_fst_of_any
    rw [hid]
    exact any_of_lookup_some st.sessions sid s hs

/-- Witness for C4: resuming the project `p` whose index points at the fresh
non-completed session `sid`. -/
theorem c4_witness :
    ∃ st1 s1,
      startReviewSession ((createSession ⟨[], []⟩ "p" ["a"] 100 "sid" "t0").1)
          "p" ["a"] 100 false "nid" "t1"
        = (st1, StartResult.resumed s1)
      ∧ s1 = { ((createSession ⟨[], []⟩ "p" ["a"] 100 "sid" "t0").2) with
          currentSessionTokenCount := 0, updatedAt := "t1" }
      ∧ st1.projectIndex
          = ((createSession ⟨[], []⟩ "p" ["a"] 100 "sid" "t0").1).projectIndex
      ∧ getSessionIdForProject st1 "p" = some "sid"
      ∧ getSession st1 "sid" = some s1
      ∧ st1.sessions.map Prod.fst
          = ((createSession ⟨[], []⟩ "p" ["a"] 100 "sid" "t0").1).sessions.map Prod.fst
      ∧ s1.currentSessionTokenCount = 0
      ∧ s1.totalTokenCount
          = ((createSession ⟨[], []⟩ "p" ["a"] 100 "sid" "t0").2).totalTokenCount
      ∧ s1.files = ((createSession ⟨[], []⟩ "p" ["a"] 100 "sid" "t0").2).files
      ∧ s1.tokenLimit = ((createSession ⟨[], []⟩ "p" ["a"] 100 "sid" "t0").2).tokenLimit
      ∧ s1.id = ((createSession ⟨[], []⟩ "p" ["a"] 100 "sid" "t0").2).id
      ∧ s1.completed = false :=
  c4_resume_preserves_session ((createSession ⟨[], []⟩ "p" ["a"] 100 "sid" "t0").1)
    "p" ["a"] 100 "nid" "t1" "sid" ((createSession ⟨[], []⟩ "p" ["a"] 100 "sid" "t0").2)
    (by decide) (by decide) (by decide) (by decide)

theorem totalInv_applySubmit (est : String → Nat) (sid : String) (st : Store)
    (op : SubmitOp)
    (ih : ∀ s, getSession st sid = some s →
      s.totalTokenCount = (s.files.map (fun f => f.tokenCount.getD 0)).sum) :
    ∀ s, getSession (applySubmit est sid st op) sid = some s →
      s.totalTokenCount = (s.files.map (fun f => f.tokenCount.getD 0)).sum := by
  intro s hs
  rcases hg : getSession st sid with _ | session
  · simp only [applySubmit, updateFileReview, hg] at hs
    simp at hs
  · rcases hu : updateFirst (fun f => f.path == op.filePath)
        (applyReviewToFile true op.feedback op.agentReview
          (submissionCost est op.fileContent op.feedback op.agentReview))
        session.files with _ | files1
    · simp only [applySubmit, updateFileReview, hg, hu] at hs
      injection hs with hss
      subst hss
      exact ih session hg
    · have hred := updateFileReview_eq_of_some est st op.now sid op.filePath
        op.fileContent true op.feedback op.agentReview session files1 hg hu
      rw [applySubmit, hred] at hs
      dsimp only at hs
      by_cases he : sid = session.id
      · subst he
        have hself := getSession_saveSession_self st op.now { session with
          files := files1
          totalTokenCount := sumTokenCounts files1
          currentSessionTokenCount := session.currentSessionTokenCount
            + submissionCost est op.fileContent op.feedback op.agentReview }
        dsimp only at hself
        rw [hself] at hs
        injection hs with hss
        subst hss
        exact sumTokenCounts_eq_sum files1
      · rw [getSession_saveSession_ne st op.now { session with
            files := files1
            totalTokenCount := sumTokenCounts files1
            currentSessionTokenCount := session.currentSessionTokenCount
              + submissionCost est op.fileContent op.feedback op.agentReview }
          sid he] at hs
        exact ih s hs

theorem totalInv_applySubmits (est : String → Nat) (sid : String) :
    ∀ (ops : List SubmitOp) (st : Store),
      (∀ s, getSession st sid = some s →
        s.totalTokenCount = (s.files.map (fun f => f.tokenCount.getD 0)).sum) →
      ∀ s, getSession (applySubmits est sid st ops) sid = some s →
        s.totalTokenCount = (s.files.map (fun f => f.tokenCount.getD 0)).sum := by
  intro ops
  induction ops with
  | nil => intro st ih; exact ih
  | cons op ops ih2 =>
    intro st ih
    exact ih2 _ (totalInv_applySubmit est sid st op ih)

/-- C3: after any sequence of submissions on a freshly created session —
including failed ones and repeated submissions for the same path — the
stored session's `totalTokenCount` equals the sum of the `tokenCount` fields
of its file entries (entries with no `tokenCount` contributing 0); the sum is
recomputed from scratch on each submission, so a resubmission replaces the
file's contribution instead of adding to it. -/
theorem c3_totalTokenCount_eq_sum (est : String → Nat) (st0 : Store)
    (projectFolder : String) (files : List String) (tokenLimit : Nat)
    (sessionId ts : String) (ops : List SubmitOp) (s : ReviewSession)
    (hs : getSession (applySubmits est sessionId
        ((createSession st0 projectFolder files tokenLimit sessionId ts).1) ops)
        sessionId = some s) :
    s.totalTokenCount = (s.files.map (fun f => f.tokenCount.getD 0)).sum := by
  apply totalInv_applySubmits est sessionId ops
    ((createSession st0 projectFolder files tokenLimit sessionId ts).1) ?_ s hs
  intro s' hs'
  have hbase : getSession
      ((createSession st0 projectFolder files tokenLimit sessionId ts).1) sessionId
      = some { id := sessionId, projectFolder := projectFolder
               files := files.map mkReviewFile, createdAt := ts, updatedAt := ts
               totalTokenCount := 0, currentSessionTokenCount := 0
               tokenLimit := tokenLimit, completed := false } := by
    simp only [createSession, saveSession, getSession]
    exact lookup_assocSet_self st0.sessions sessionId _
  rw [hbase] at hs'
  injection hs' with hss
  subst hss
  have hz : ∀ (fs : List String),
      (List.map ((fun f : ReviewFile => f.tokenCount.getD 0) ∘ mkReviewFile) fs).sum
        = 0 := by
    intro fs
    induction fs with
    | nil => rfl
    | cons x t ih => simpa [mkReviewFile] using ih
  rw [List.map_map]
  exact (hz files).symm

/-- Witness for C3: one file submitted twice (content costs 3 then 1); the
stored total equals the single entry's final `tokenCount`. -/
theorem c3_witness :
    getSession (applySubmits (fun t => t.length) "sid"
        ((createSession ⟨[], []⟩ "p" ["a"] 100 "sid" "t0").1)
        [⟨"t1", "a", "ccc", "", none⟩, ⟨"t2", "a", "c", "", none⟩]) "sid"
      = some ⟨"sid", "p", [⟨"a", true, "", none, some 1⟩], "t0", "t2", 1, 4, 100, false⟩
    ∧ (⟨"sid", "p", [⟨"a", true, "", none, some 1⟩], "t0", "t2", 1, 4, 100,
        false⟩ : ReviewSession).totalTokenCount
      = ((⟨"sid", "p", [⟨"a", true, "", none, some 1⟩], "t0", "t2", 1, 4, 100,
          false⟩ : ReviewSession).files.map (fun f => f.tokenCount.getD 0)).sum :=
  ⟨by decide,
   c3_totalTokenCount_eq_sum (fun t => t.length) ⟨[], []⟩ "p" ["a"] 100 "sid" "t0"
     [⟨"t1", "a", "ccc", "", none⟩, ⟨"t2", "a", "c", "", none⟩]
     ⟨"sid", "p", [⟨"a", true, "", none, some 1⟩], "t0", "t2", 1, 4, 100, false⟩
     (by decide)⟩

theorem dupInv_applyOp (est : String → Nat) (sid : String) (paths : List String)
    (i j : Nat) (hij : i < j) (hdup : paths[i]? = paths[j]?)
    (st : Store) (op : EngineOp)
    (ih : ∃ s, getSession st sid = some s ∧ s.id = sid
      ∧ s.files.map (fun f => f.path) = paths
      ∧ (∃ e, s.files[j]? = some e ∧ e.reviewed = false)
      ∧ s.completed = false) :
    ∃ s, getSession (applyOp est sid st op) sid = some s ∧ s.id = sid
      ∧ s.files.map (fun f => f.path) = paths
      ∧ (∃ e, s.files[j]? = some e ∧ e.reviewed = false)
      ∧ s.completed = false := by
  rcases ih with ⟨s, hg, hsid, hpaths, ⟨e, hj, hrev⟩, hcomp⟩
  cases op with
  | nextFile => exact ⟨s, hg, hsid, hpaths, ⟨e, hj, hrev⟩, hcomp⟩
  | reset now =>
    refine ⟨{ s with currentSessionTokenCount := 0, updatedAt := now },
      ?_, hsid, hpaths, ⟨e, hj, hrev⟩, hcomp⟩
    have hsave := getSession_saveSession_self st now
      { s with currentSessionTokenCount := 0 }
    simp only [applyOp, resetSessionTokenCount, hg]
    simpa [hsid] using hsave
  | complete now =>
    have hpos : 0 < s.files.countP (fun f => !f.reviewed) :=
      countP_pos_of_getElem? s.files j e hj hrev
    have hresolve : resolveSessionId st sid = some sid := by
      simp [resolveSessionId, hg]
    have hcomplete : completeReviewSession st sid now
        = (st, CompleteResult.errorPending (s.files.countP (fun f => !f.reviewed))
            (s.files.countP (fun f => f.reviewed)) s.files.length) := by
      simp only [completeReviewSession, hresolve, hg, if_pos hpos]
    refine ⟨s, ?_, hsid, hpaths, ⟨e, hj, hrev⟩, hcomp⟩
    simp only [applyOp, hcomplete]
    exact hg
  | submit now fp content fb ar =>
    rcases hu : updateFirst (fun f => f.path == fp)
        (applyReviewToFile true fb ar (submissionCost est content fb ar))
        s.files with _ | files1
    · refine ⟨s, ?_, hsid, hpaths, ⟨e, hj, hrev⟩, hcomp⟩
      simp only [applyOp, updateFileReview, hg, hu]
    · rcases updateFirst_spec _ _ s.files files1 hu with ⟨n, a, hget, hpa, hfirst, hset⟩
      have hne : n ≠ j := by
        intro hnj
        subst hnj
        rw [hj] at hget
        injection hget with hae
        subst hae
        have hmapi : (s.files.map (fun f => f.path))[i]?
            = (s.files.map (fun f => f.path))[n]? := by
          rw [hpaths, hdup]
        rw [List.getElem?_map, List.getElem?_map, hj] at hmapi
        rcases hbi : s.files[i]? with _ | b
        · rw [hbi] at hmapi
          simp at hmapi
        · rw [hbi] at hmapi
          simp only [Option.map_some'] at hmapi
          injection hmapi with hbp
          have hfalse : (fun f : ReviewFile => f.path == fp) b = false :=
            hfirst i hij b hbi
          rw [show ((fun f : ReviewFile => f.path == fp) b) = (b.path == fp)
              from rfl, hbp] at hfalse
          rw [hpa] at hfalse
          cases hfalse
      have hred := updateFileReview_eq_of_some est st now sid fp content true fb ar
        s files1 hg hu
      refine ⟨{ s with
          files := files1
          totalTokenCount := sumTokenCounts files1
          currentSessionTokenCount :=
            s.currentSessionTokenCount + submissionCost est content fb ar
          updatedAt := now }, ?_, hsid, ?_, ⟨e, ?_, hrev⟩, hcomp⟩
      · have hsave := getSession_saveSession_self st now { s with
          files := files1
          totalTokenCount := sumTokenCounts files1
          currentSessionTokenCount :=
            s.currentSessionTokenCount + submissionCost est content fb ar }
        simp only [applyOp, hred]
        simpa [hsid] using hsave
      · rw [show ({ s with
            files := files1
            totalTokenCount := sumTokenCounts files1
            currentSessionTokenCount :=
              s.currentSessionTokenCount + submissionCost est content fb ar
            updatedAt := now } : ReviewSession).files = files1 from rfl]
        rw [updateFirst_map_path
          (applyReviewToFile true fb ar (submissionCost est content fb ar))
          (fun x => rfl) _ s.files files1 hu]
        exact hpaths
      · rw [show ({ s with
            files := files1
            totalTokenCount := sumTokenCounts files1
            currentSessionTokenCount :=
              s.currentSessionTokenCount + submissionCost est content fb ar
            updatedAt := now } : ReviewSession).files = files1 from rfl]
        rw [hset, List.getElem?_set_ne hne]
        exact hj

theorem dupInv_applyOps (est : String → Nat) (sid : String) (paths : List String)
    (i j : Nat) (hij : i < j) (hdup : paths[i]? = paths[j]?) :
    ∀ (ops : List EngineOp) (st : Store),
      (∃ s, getSession st sid = some s ∧ s.id = sid
        ∧ s.files.map (fun f => f.path) = paths
        ∧ (∃ e, s.files[j]? = some e ∧ e.reviewed = false)
        ∧ s.completed = false) →
      ∃ s, getSession (applyOps est sid st ops) sid = some s ∧ s.id = sid
        ∧ s.files.map (fun f => f.path) = paths
        ∧ (∃ e, s.files[j]? = some e ∧ e.reviewed = false)
        ∧ s.completed = false := by
  intro ops
  induction ops with
  | nil => intro st ih; exact ih
  | cons op ops ih2 =>
    intro st ih
    exact ih2 _ (dupInv_applyOp est sid paths i j hij hdup st op ih)

/-- C9: a session created from a file list containing a duplicated path can
never be completed through the engine's operations: submissions only ever
update the first matching entry, so after any sequence of operations the
later duplicate entry is still unreviewed, the session's `completed` flag is
still false, and the completion tool fails with the pending-files error. -/
theorem c9_duplicate_path_blocks_completion (est : String → Nat) (st0 : Store)
    (projectFolder : String) (files : List String) (tokenLimit : Nat)
    (sessionId ts now2 : String) (ops : List EngineOp) (i j : Nat)
    (hij : i < j) (hj : j < files.length) (hdup : files[i]? = files[j]?) :
    ∃ s e,
      getSession (applyOps est sessionId
          ((createSession st0 projectFolder files tokenLimit sessionId ts).1) ops)
        sessionId = some s
      ∧ s.files[j]? = some e ∧ e.reviewed = false
      ∧ s.completed = false
      ∧ completeReviewSession (applyOps est sessionId
            ((createSession st0 projectFolder files tokenLimit sessionId ts).1) ops)
          sessionId now2
          = (applyOps est sessionId
              ((createSession st0 projectFolder files tokenLimit sessionId ts).1) ops,
             CompleteResult.errorPending (s.files.countP (fun f => !f.reviewed))
               (s.files.countP (fun f => f.reviewed)) s.files.length) := by
  have hbase : getSession
      ((createSession st0 projectFolder files tokenLimit sessionId ts).1) sessionId
      = some { id := sessionId, projectFolder := projectFolder
               files := files.map mkReviewFile, createdAt := ts, updatedAt := ts
               totalTokenCount := 0, currentSessionTokenCount := 0
               tokenLimit := tokenLimit, completed := false } := by
    simp only [createSession, saveSession, getSession]
    exact lookup_assocSet_self st0.sessions sessionId _
  have hjq : files[j]? = some files[j] := List.getElem?_eq_getElem hj
  have hinv := dupInv_applyOps est sessionId files i j hij hdup ops
    ((createSession st0 projectFolder files tokenLimit sessionId ts).1)
    ⟨{ id := sessionId, projectFolder := projectFolder
       files := files.map mkReviewFile, createdAt := ts, updatedAt := ts
       totalTokenCount := 0, currentSessionTokenCount := 0
       tokenLimit := tokenLimit, completed := false },
     hbase, rfl, ?_, ⟨mkReviewFile files[j], ?_, rfl⟩, rfl⟩
  · rcases hinv with ⟨s, hg, hsid, hpaths, ⟨e, hje, hrev⟩, hcomp⟩
    have hpos : 0 < s.files.countP (fun f => !f.reviewed) :=
      countP_pos_of_getElem? s.files j e hje hrev
    have hresolve : resolveSessionId (applyOps est sessionId
        ((createSession st0 projectFolder files tokenLimit sessionId ts).1) ops)
        sessionId = some sessionId := by
      simp [resolveSessionId, hg]
    refine ⟨s, e, hg, hje, hrev, hcomp, ?_⟩
    simp only [completeReviewSession, hresolve, hg, if_pos hpos]
  · rw [List.map_map]
    have : ∀ (fs : List String),
        fs.map ((fun f : ReviewFile => f.path) ∘ mkReviewFile) = fs := by
      intro fs
      induction fs with
      | nil => rfl
      | cons x t ihx => simp [mkReviewFile, ihx]
    exact this files
  · rw [List.getElem?_map, hjq]
    rfl

/-- Witness for C9: a session over the duplicated list `["a", "a"]` after one
submission for `a` still has its second entry unreviewed, and completion
fails with the pending-files error. -/
theorem c9_witness :
    ∃ s e,
      getSession (applyOps (fun t => t.length) "sid"
          ((createSession ⟨[], []⟩ "p" ["a", "a"] 100 "sid" "t0").1)
          [EngineOp.submit "t1" "a" "c" "" none]) "sid" = some s
      ∧ s.files[1]? = some e ∧ e.reviewed = false
      ∧ s.completed = false
      ∧ completeReviewSession (applyOps (fun t => t.length) "sid"
            ((createSession ⟨[], []⟩ "p" ["a", "a"] 100 "sid" "t0").1)
            [EngineOp.submit "t1" "a" "c" "" none]) "sid" "t2"
          = (applyOps (fun t => t.length) "sid"
              ((createSession ⟨[], []⟩ "p" ["a", "a"] 100 "sid" "t0").1)
              [EngineOp.submit "t1" "a" "c" "" none],
             CompleteResult.errorPending (s.files.countP (fun f => !f.reviewed))
               (s.files.countP (fun f => f.reviewed)) s.files.length) :=
  c9_duplicate_path_blocks_completion (fun t => t.length) ⟨[], []⟩ "p" ["a", "a"] 100
    "sid" "t0" "t2" [EngineOp.submit "t1" "a" "c" "" none] 0 1
    (by decide) (by decide) (by decide)
